import Mathlib

/-!
Verification of the wiznote_export repository (webapi-export variant).

The development shallowly embeds the two core source files:
  * `src/json_to_markdown.py` (class `JsonToMarkdownConverter`): the
    block-tree JSON to Markdown converter;
  * `src/api_client.py` (decorator `rate_limit`, class `WizNoteAPIClient`):
    the rate-limited REST client with retry, and the WebSocket message pump
    of `get_note_detail_via_websocket`;
together with the filename logic of `main.py`
(`sanitize_filename`, `convert_all_json_to_markdown`,
`export_notes_to_markdown`).

Python dictionaries holding note data are embedded as structures whose
fields carry `Option`/default values mirroring `dict.get` defaults; Python
truthiness of the relevant fields (empty list, `0`, `None`, empty string)
is modelled case by case where the source relies on it.
-/

namespace WizExport

/-! ## Embedding of the Python string primitives used by the source -/

/-- Characters removed by Python `str.strip()` (ASCII whitespace as used by
the data at hand). -/
def isStripChar (c : Char) : Bool :=
  c == ' ' || c == '\t' || c == '\n' || c == '\r' || c == '\x0b' || c == '\x0c'

/-- List-level strip: drop strip-characters from both ends. -/
def pyStripList (l : List Char) : List Char :=
  ((l.dropWhile isStripChar).reverse.dropWhile isStripChar).reverse

/-- Embedding of Python `s.strip()`. -/
def pyStrip (s : String) : String := ⟨pyStripList s.data⟩

/-- Embedding of Python `s.replace(old, new)` for single-character
arguments (the only use in the source). -/
def pyReplaceChar (s : String) (old new : Char) : String :=
  ⟨s.data.map (fun c => if c = old then new else c)⟩

/-- Embedding of Python `s[:n]` (take the first `n` characters). -/
def pyTake (s : String) (n : Nat) : String := ⟨s.data.take n⟩

/-- Embedding of Python `'#' * n`. -/
def hashMarks (n : Nat) : String := ⟨List.replicate n '#'⟩

/-! ## Data model of the converter (`json_to_markdown.py`)

A note document is a JSON object: a `blocks` key (optional) holding the
top-level block list, and further keys mapping opaque cell-id strings to
auxiliary content (used by table cells).  A block is a JSON object read
with `dict.get`, so every field is optional with the source's defaults. -/

/-- Style attributes of one text run (`attributes` dict).  Each field is
the Python truthiness of the corresponding `style-*` key; `style-color-6`
is read by the source but ignored (`pass`), so it is not modelled. -/
structure Attrs where
  bold : Bool := false
  italic : Bool := false
  strike : Bool := false
  code : Bool := false
deriving DecidableEq

/-- One text run: `{'insert': ..., 'attributes': {...}}`.  A missing
`insert` defaults to `''` and a missing `attributes` dict behaves exactly
like one whose style keys are all falsy. -/
structure TextRun where
  insert : String := ""
  attributes : Attrs := {}
deriving DecidableEq

/-- One sub-block inside a table cell: only its optional `'text'` key
(list of runs) is inspected by `_get_cell_content`. -/
structure CellBlock where
  text : Option (List TextRun) := none
deriving DecidableEq

/-- The value a cell id maps to in the root JSON object: either not a
list (rejected by `_get_cell_content`) or a list of cell sub-blocks. -/
inductive CellVal where
  | notList
  | blocksVal (cellBlocks : List CellBlock)
deriving DecidableEq

/-- One block of the document, with the `dict.get` defaults of the source:
`type` (absent means `'text'`), `text` run list, `heading` level (absent
or `0` is falsy), `quoted` flag, and the table fields `rows`, `cols`,
`children` (cell ids, row-major), `hasRowTitle`. -/
structure Block where
  type : Option String := none
  text : List TextRun := []
  heading : Option Nat := none
  quoted : Bool := false
  rows : Nat := 0
  cols : Nat := 0
  children : List String := []
  hasRowTitle : Bool := false
deriving DecidableEq

/-- The decoded root JSON object: the optional `blocks` key plus the side
mapping from cell-id strings to auxiliary values (all other keys).  The
source looks cell ids up in the same dictionary that holds `blocks`; the
embedding keeps the two apart, which is faithful for every cell id other
than the literal string `'blocks'`. -/
structure Document where
  blocks : Option (List Block) := none
  cells : List (String × CellVal) := []
deriving DecidableEq

/-! ## The converter functions (translated from `json_to_markdown.py`) -/

/-- Translation of `_apply_text_styles`: wrap `text` in the fixed order
bold, italic, strikethrough, inline code (so bold markers end up
innermost and backticks outermost).  The source's early return for a
falsy `attributes` dict coincides with the all-false case. -/
def applyTextStyles (text : String) (attributes : Attrs) : String :=
  let text := if attributes.bold then "**" ++ text ++ "**" else text
  let text := if attributes.italic then "*" ++ text ++ "*" else text
  let text := if attributes.strike then "~~" ++ text ++ "~~" else text
  let text := if attributes.code then "`" ++ text ++ "`" else text
  text

/-- Concatenation of the styled runs of a text list (the `result_parts`
loop of `_convert_text_block` and `_get_cell_content`). -/
def styledRunsJoin (textItems : List TextRun) : String :=
  String.join (textItems.map (fun ti => applyTextStyles ti.insert ti.attributes))

/-- Python truthiness of the `heading` field (`None` and `0` are falsy). -/
def headingTruthy : Option Nat → Bool
  | none => false
  | some n => n != 0

/-- Translation of `_convert_text_block`. -/
def convertTextBlock (block : Block) : String :=
  if block.text.isEmpty then ""
  else
    let result := pyStrip (styledRunsJoin block.text)
    if headingTruthy block.heading then
      hashMarks (block.heading.getD 1) ++ " " ++ result
    else if block.quoted then
      "> " ++ result
    else
      result

/-- Translation of `_get_cell_content`: resolve a cell id in the root
object; missing ids and non-list values give `''`; otherwise the styled
text of every sub-block carrying a `'text'` key, space-joined, stripped. -/
def getCellContent (cellId : String) (rootData : Document) : String :=
  match rootData.cells.lookup cellId with
  | none => ""
  | some CellVal.notList => ""
  | some (CellVal.blocksVal cellBlocks) =>
    let cellTexts := cellBlocks.foldl (fun acc cellBlock =>
      match cellBlock.text with
      | some textItems => acc ++ [styledRunsJoin textItems]
      | none => acc) []
    pyStrip (String.intercalate " " cellTexts)

/-- One Markdown table line: `'| ' + ' | '.join(cells) + ' |'`. -/
def mdRow (cells : List String) : String :=
  "| " ++ String.intercalate " | " cells ++ " |"

/-- Translation of `_format_markdown_table`.  The `hasHeader` argument
(`hasRowTitle` in the source) is accepted and ignored, exactly as in the
source. -/
def formatMarkdownTable (tableData : List (List String)) (_hasHeader : Bool) : String :=
  match tableData with
  | [] => ""
  | header :: rest =>
    let headerLine := mdRow header
    let separator := mdRow (List.replicate header.length "---")
    String.intercalate "\n" (headerLine :: separator :: rest.map mdRow)

/-- Translation of `_convert_table_block`. -/
def convertTableBlock (block : Block) (rootData : Document) : String :=
  if block.rows = 0 || block.cols = 0 || block.children.isEmpty then ""
  else
    let tableData := (List.range block.rows).map (fun i =>
      (List.range block.cols).map (fun j =>
        let cellIndex := i * block.cols + j
        match block.children.get? cellIndex with
        | some cellId => getCellContent cellId rootData
        | none => ""))
    formatMarkdownTable tableData block.hasRowTitle

/-- Translation of `_convert_block`: dispatch on `block.get('type','text')`;
every tag other than `'table'` (including unknown tags) takes the
text-block path. -/
def convertBlock (block : Block) (rootData : Document) : String :=
  let blockType := block.type.getD "text"
  if blockType = "text" then convertTextBlock block
  else if blockType = "table" then convertTableBlock block rootData
  else convertTextBlock block

/-- Translation of `convert`: absent `blocks` gives `''`; otherwise the
loop appends each block's conversion when it is truthy (non-empty) and
joins with a blank line. -/
def convert (data : Document) : String :=
  match data.blocks with
  | none => ""
  | some blocks =>
    let markdownLines := blocks.foldl (fun acc block =>
      let blockMd := convertBlock block data
      if blockMd != "" then acc ++ [blockMd] else acc) []
    String.intercalate "\n\n" markdownLines

/-! ## Spec-side renderings (refinement targets)

These definitions follow the wording of the specification, to be compared
with the translations above. -/

/-- Spec wording: bold markers. -/
def wrapBold (b : Bool) (s : String) : String := if b then "**" ++ s ++ "**" else s

/-- Spec wording: italic markers. -/
def wrapItalic (b : Bool) (s : String) : String := if b then "*" ++ s ++ "*" else s

/-- Spec wording: strikethrough markers. -/
def wrapStrike (b : Bool) (s : String) : String := if b then "~~" ++ s ++ "~~" else s

/-- Spec wording: inline-code markers. -/
def wrapCode (b : Bool) (s : String) : String := if b then "`" ++ s ++ "`" else s

/-- Modelled from the spec words of claim C1: a run's text wrapped by its
style markers in the fixed order bold, then italic, then strikethrough,
then inline code (bold innermost, code outermost). -/
def specStyleRun (r : TextRun) : String :=
  wrapCode r.attributes.code
    (wrapStrike r.attributes.strike
      (wrapItalic r.attributes.italic
        (wrapBold r.attributes.bold r.insert)))

/-- Modelled from the spec words of claim C1: styled runs concatenated in
order and trimmed; prefixed with hash marks times the heading level plus a
space when a positive heading level is present, otherwise with a quote
marker when the quote flag is set (heading takes precedence); heading
level zero or absent is a plain paragraph. -/
def specTextRender (block : Block) : String :=
  let body := pyStrip (String.join (block.text.map specStyleRun))
  match block.heading with
  | some n =>
    if 0 < n then hashMarks n ++ " " ++ body
    else if block.quoted then "> " ++ body else body
  | none => if block.quoted then "> " ++ body else body

/-- Spec wording of claim C2: a cell index beyond the end of the cell-id
sequence yields an empty cell, otherwise the id resolves via the side
mapping. -/
def specCell (children : List String) (rootData : Document) (k : Nat) : String :=
  match children.get? k with
  | some cellId => getCellContent cellId rootData
  | none => ""

/-- Spec wording of claim C2: row `i` of the table, row-major. -/
def specTableRow (block : Block) (rootData : Document) (i : Nat) : String :=
  mdRow ((List.range block.cols).map (fun j =>
    specCell block.children rootData (i * block.cols + j)))

/-- Modelled from the spec words of claim C2: with positive row and column
counts and a non-empty cell-id sequence, the first data row is rendered as
the Markdown header row, then a separator row of `---` cells, then the
remaining rows; degenerate tables render as the empty string. -/
def specTableRender (block : Block) (rootData : Document) : String :=
  if block.rows = 0 || block.cols = 0 || block.children.isEmpty then ""
  else
    String.intercalate "\n"
      (specTableRow block rootData 0 ::
        mdRow (List.replicate block.cols "---") ::
          (List.range (block.rows - 1)).map (fun i => specTableRow block rootData (i + 1)))

/-! ## Helper lemmas -/

/-- A fold that appends `f x` when it exists equals the filterMap. -/
theorem foldl_append_filterMap {α β : Type} (f : α → Option β) (l : List α) :
    ∀ acc : List β,
      l.foldl (fun acc x => acc ++ (f x).toList) acc = acc ++ l.filterMap f := by
  induction l with
  | nil => simp
  | cons x xs ih =>
    intro acc
    rw [List.foldl_cons, ih]
    cases hfx : f x <;> simp [hfx, List.filterMap_cons]

/-- A fold that appends `f x` when non-empty equals filtering the map. -/
theorem foldl_append_filter {α : Type} (f : α → String) (l : List α) :
    ∀ acc : List String,
      l.foldl (fun acc x => if f x != "" then acc ++ [f x] else acc) acc
        = acc ++ (l.map f).filter (fun s => s != "") := by
  induction l with
  | nil => simp
  | cons x xs ih =>
    intro acc
    rw [List.foldl_cons, ih]
    by_cases hfx : f x = "" <;> simp [hfx, List.filter_cons]

/-- The source's per-run styling agrees with the spec's nested markers. -/
theorem applyTextStyles_eq_specStyleRun (t : String) (a : Attrs) :
    applyTextStyles t a = specStyleRun ⟨t, a⟩ := rfl

/-! ## Claim theorems for the converter -/

/-- Claim C1 counterexample: a text block with an empty run sequence but a
positive heading level renders as the empty string in the code, while the
claim's formula would render the heading prefix `## `. -/
theorem c1_counterexample :
    convertTextBlock { text := [], heading := some 2 } = "" ∧
    specTextRender { text := [], heading := some 2 } = "## " ∧
    convertTextBlock { text := [], heading := some 2 } ≠
      specTextRender { text := [], heading := some 2 } := by
  decide

/-- Claim C1 (amended): a text block with an empty (or absent) run
sequence renders as the empty string regardless of heading or quote
flags; for every text block with at least one run, the converter renders
exactly the spec formula: each run wrapped by its style markers in the
fixed order bold, italic, strikethrough, inline code (bold innermost,
code outermost), runs concatenated and trimmed, then prefixed with hash
marks times the heading level plus a space when the heading level is
positive, else with a quote marker when the quote flag is set (heading
taking precedence, level zero or absent treated as a plain paragraph).
Repeated conversion is byte-identical since the converter is a pure
function. -/
theorem c1_text_block_renders_per_spec (block : Block) :
    (block.text = [] → convertTextBlock block = "") ∧
    (block.text ≠ [] → convertTextBlock block = specTextRender block) := by
  constructor
  · intro h
    simp [convertTextBlock, h]
  · intro h
    have hne : block.text.isEmpty = false := by
      simp [List.isEmpty_iff, h]
    have hjoin : styledRunsJoin block.text = String.join (block.text.map specStyleRun) := by
      unfold styledRunsJoin
      congr 1
    unfold convertTextBlock specTextRender
    rw [hne]
    simp only [Bool.false_eq_true, if_false, hjoin]
    cases hh : block.heading with
    | none => simp [headingTruthy]
    | some n =>
      by_cases hn : n = 0
      · simp [headingTruthy, hn]
      · have : 0 < n := Nat.pos_of_ne_zero hn
        simp [headingTruthy, hn, this]

/-- Claim C1 witness: concrete heading block where the amended theorem's
hypothesis holds. -/
theorem c1_witness :
    convertTextBlock { text := [⟨"Title", {}⟩], heading := some 2 } =
      specTextRender { text := [⟨"Title", {}⟩], heading := some 2 } :=
  (c1_text_block_renders_per_spec _).2 (by decide)

/-- Concrete document for the claim C2 example: four cell ids resolving
to the texts A, B, C, D. -/
def c2ExampleDoc : Document :=
  { cells := [("c1", CellVal.blocksVal [⟨some [⟨"A", {}⟩]⟩]),
              ("c2", CellVal.blocksVal [⟨some [⟨"B", {}⟩]⟩]),
              ("c3", CellVal.blocksVal [⟨some [⟨"C", {}⟩]⟩]),
              ("c4", CellVal.blocksVal [⟨some [⟨"D", {}⟩]⟩])] }

/-- Concrete table block for the claim C2 example. -/
def c2ExampleTable : Block :=
  { type := some "table", rows := 2, cols := 2, children := ["c1", "c2", "c3", "c4"] }

/-- Claim C2: for positive row and column counts and a non-empty cell-id
sequence the converter emits the rows in row-major order with
out-of-range cell indices as empty cells, always rendering the first data
row as the header followed by a separator row of `---` cells; the
`hasRowTitle` flag is irrelevant to the output; degenerate tables render
as the empty string; and the concrete 2x2 example renders exactly as
stated. -/
theorem c2_table_render :
    (∀ (block : Block) (rootData : Document),
        0 < block.rows → 0 < block.cols → block.children ≠ [] →
        convertTableBlock block rootData = specTableRender block rootData) ∧
    (∀ (block : Block) (rootData : Document) (flag : Bool),
        convertTableBlock { block with hasRowTitle := flag } rootData
          = convertTableBlock block rootData) ∧
    (∀ (block : Block) (rootData : Document),
        block.rows = 0 ∨ block.cols = 0 ∨ block.children = [] →
        convertTableBlock block rootData = "") ∧
    convertTableBlock c2ExampleTable c2ExampleDoc
      = "| A | B |\n| --- | --- |\n| C | D |" := by
  refine ⟨?_, ?_, ?_, by decide⟩
  · intro block rootData hR hC hch
    obtain ⟨r, hr⟩ : ∃ r, block.rows = r + 1 := ⟨block.rows - 1, by omega⟩
    unfold convertTableBlock specTableRender
    have hcond : (decide (block.rows = 0) || decide (block.cols = 0)
        || block.children.isEmpty) = false := by
      simp [List.isEmpty_iff, hch]
      omega
    rw [hcond]
    simp only [Bool.false_eq_true, if_false]
    rw [hr, List.range_succ_eq_map, List.map_cons, List.map_map]
    unfold formatMarkdownTable
    simp only [List.length_map, List.length_range]
    unfold specTableRow specCell
    simp [hr, List.map_map, Function.comp_def, Nat.succ_eq_add_one]
  · intro block rootData flag
    rfl
  · intro block rootData h
    rcases h with h | h | h <;>
      simp [convertTableBlock, h, List.isEmpty_iff]

/-- Claim C2 witness: the refinement equation applied to the concrete 2x2
example table. -/
theorem c2_witness :
    convertTableBlock c2ExampleTable c2ExampleDoc
      = specTableRender c2ExampleTable c2ExampleDoc :=
  c2_table_render.1 c2ExampleTable c2ExampleDoc (by decide) (by decide) (by decide)

/-- Claim C7 counterexample: a document with a block that renders empty.
The code drops the empty conversion before joining, so the output differs
from the claim's literal reading (all per-block conversions joined with a
blank line). -/
theorem c7_counterexample :
    convert { blocks := some [{ text := [⟨"A", {}⟩] }, { text := [] },
        { text := [⟨"B", {}⟩] }] } = "A\n\nB" ∧
    String.intercalate "\n\n"
        (([{ text := [⟨"A", {}⟩] }, { text := [] }, { text := [⟨"B", {}⟩] }] : List Block).map
          (fun b => convertBlock b { blocks := some [{ text := [⟨"A", {}⟩] },
            { text := [] }, { text := [⟨"B", {}⟩] }] })) = "A\n\n\n\nB" ∧
    convert { blocks := some [{ text := [⟨"A", {}⟩] }, { text := [] },
        { text := [⟨"B", {}⟩] }] } ≠ "A\n\n\n\nB" := by
  decide

/-- Claim C7 (amended): an absent or empty top-level block sequence
converts to the empty string (not an error); otherwise the converter
returns the non-empty per-block conversions joined with a blank line
(double newline) between them, preserving source order — blocks whose
conversion is empty are omitted from the join. -/
theorem c7_convert_joins_blocks (data : Document) :
    (data.blocks = none → convert data = "") ∧
    (data.blocks = some [] → convert data = "") ∧
    (∀ blocks, data.blocks = some blocks →
      convert data = String.intercalate "\n\n"
        ((blocks.map (fun b => convertBlock b data)).filter (fun s => s != ""))) := by
  refine ⟨?_, ?_, ?_⟩
  · intro h; simp [convert, h]
  · intro h
    simp only [convert, h]
    rfl
  · intro blocks h
    have hstep : (fun (acc : List String) (block : Block) =>
        let blockMd := convertBlock block data
        if blockMd != "" then acc ++ [blockMd] else acc)
      = (fun (acc : List String) (block : Block) =>
        if convertBlock block data != "" then acc ++ [convertBlock block data] else acc) := rfl
    simp only [convert, h]
    rw [hstep]
    rw [show List.foldl (fun (acc : List String) (block : Block) =>
        if convertBlock block data != "" then acc ++ [convertBlock block data] else acc) [] blocks
      = [] ++ (blocks.map (fun b => convertBlock b data)).filter (fun s => s != "") from
        foldl_append_filter (fun b => convertBlock b data) blocks []]
    simp

/-- Claim C7 witness: the join equation applied to a concrete two-block
document. -/
theorem c7_witness :
    convert { blocks := some [{ text := [⟨"A", {}⟩] }, { text := [⟨"B", {}⟩] }] }
      = String.intercalate "\n\n"
        ((([{ text := [⟨"A", {}⟩] }, { text := [⟨"B", {}⟩] }] : List Block).map
          (fun b => convertBlock b { blocks := some [{ text := [⟨"A", {}⟩] },
            { text := [⟨"B", {}⟩] }] })).filter (fun s => s != "")) :=
  (c7_convert_joins_blocks _).2.2 _ rfl

/-- Claim C9: every block whose type tag is absent or differs from both
`text` and `table` is rendered via the text-block conversion path, so an
unknown block variant never fails the document conversion. -/
theorem c9_unknown_block_type_falls_back (block : Block) (rootData : Document) :
    block.type = none ∨ (block.type ≠ some "text" ∧ block.type ≠ some "table") →
    convertBlock block rootData = convertTextBlock block := by
  intro h
  rcases h with h | ⟨h1, h2⟩
  · simp [convertBlock, h]
  · unfold convertBlock
    cases htype : block.type with
    | none => simp
    | some t =>
      have ht2 : t ≠ "table" := fun hc => h2 (by rw [htype, hc])
      by_cases ht : t = "text"
      · simp [ht]
      · simp [ht, ht2]

/-- Claim C9 witness: a block with the unknown type tag `embed` takes the
text path. -/
theorem c9_witness :
    convertBlock { type := some "embed", text := [⟨"x", {}⟩] } {}
      = convertTextBlock { type := some "embed", text := [⟨"x", {}⟩] } :=
  c9_unknown_block_type_falls_back _ _ (Or.inr ⟨by decide, by decide⟩)

/-- Claim C10: cell-content resolution is total — an id absent from the
side mapping, or mapped to a non-list value, renders as the empty string;
otherwise exactly the sub-blocks carrying a `text` field contribute,
joined by a single space and trimmed. -/
theorem c10_cell_content_total (cellId : String) (rootData : Document) :
    (rootData.cells.lookup cellId = none → getCellContent cellId rootData = "") ∧
    (rootData.cells.lookup cellId = some CellVal.notList →
      getCellContent cellId rootData = "") ∧
    (∀ cellBlocks, rootData.cells.lookup cellId = some (CellVal.blocksVal cellBlocks) →
      getCellContent cellId rootData =
        pyStrip (String.intercalate " "
          (cellBlocks.filterMap (fun cb => cb.text.map styledRunsJoin)))) := by
  refine ⟨?_, ?_, ?_⟩
  · intro h; simp [getCellContent, h]
  · intro h; simp [getCellContent, h]
  · intro cellBlocks h
    have hstep : (fun (acc : List String) (cellBlock : CellBlock) =>
        match cellBlock.text with
        | some textItems => acc ++ [styledRunsJoin textItems]
        | none => acc)
      = (fun (acc : List String) (cb : CellBlock) =>
        acc ++ (cb.text.map styledRunsJoin).toList) := by
      funext acc cb
      cases cb.text <;> simp
    simp only [getCellContent, h]
    rw [hstep]
    rw [show List.foldl (fun (acc : List String) (cb : CellBlock) =>
        acc ++ (cb.text.map styledRunsJoin).toList) [] cellBlocks
      = [] ++ cellBlocks.filterMap (fun cb => cb.text.map styledRunsJoin) from
        foldl_append_filterMap (fun cb => cb.text.map styledRunsJoin) cellBlocks []]
    simp

/-- Document used by the claim C10 witness. -/
def c10ExampleDoc : Document :=
  { cells := [("c", CellVal.blocksVal
      [⟨some [⟨"A", {}⟩]⟩, ⟨none⟩, ⟨some [⟨"B", {}⟩]⟩])] }

/-- Claim C10 witness: a cell mixing text-bearing and text-less
sub-blocks resolves to the space-join of the text-bearing ones. -/
theorem c10_witness : getCellContent "c" c10ExampleDoc = "A B" := by
  have h := (c10_cell_content_total "c" c10ExampleDoc).2.2
    [⟨some [⟨"A", {}⟩]⟩, ⟨none⟩, ⟨some [⟨"B", {}⟩]⟩] rfl
  rw [h]
  decide

/-! ## WebSocket session model (`get_note_detail_via_websocket`)

The receive loop of `get_note_detail_via_websocket` is embedded as a
function over a scripted sequence of inbound events.  Each event is a
frame already classified by the loop's decode/parse steps (falsy frame,
undecodable binary, non-JSON text, or a parsed JSON object of which the
loop reads the keys `a`, `id` and `data`), a receive timeout, or an
abrupt connection close.  The document payload is abstracted as a type
parameter. -/

/-- One scripted inbound event of the message pump. -/
inductive WsIn (α : Type) where
  | emptyMsg
  | undecodable
  | nonJson
  | jsonMsg (a : Option String) (id : Option String) (data : Option α)
  | timeout
  | closed
deriving DecidableEq

/-- A message the client sends from inside the pump: the re-sent
handshake, or the document-fetch request. -/
inductive WsOut where
  | handshake
  | fetchReq
deriving DecidableEq

/-- Final state of the message pump: the captured payload (absent on
timeout/close/exhaustion), the received-message counter, the captured
session id, the messages sent from inside the loop, and the
`handshake_sent` flag. -/
structure PumpResult (α : Type) where
  payload : Option α
  count : Nat
  sessionId : Option String
  sent : List WsOut
  handshakeSent : Bool
deriving DecidableEq

/-- Translation of the `while True` receive loop: timeouts and closes
break with no payload; falsy, undecodable and non-JSON frames are
counted and skipped; an `init` message re-sends the handshake only when
it was not re-sent before, capturing the session id; an `hs` message
sends the fetch request; an `f` message carrying a `data` key breaks with
the payload.  Script exhaustion is treated like a receive timeout (the
scripted server stops responding). -/
def pumpLoop {α : Type} :
    List (WsIn α) → Bool → Option String → Nat → List WsOut → PumpResult α
  | [], hs, sid, n, out => ⟨none, n, sid, out, hs⟩
  | e :: rest, hs, sid, n, out =>
    match e with
    | WsIn.timeout => ⟨none, n, sid, out, hs⟩
    | WsIn.closed => ⟨none, n, sid, out, hs⟩
    | WsIn.emptyMsg => pumpLoop rest hs sid (n + 1) out
    | WsIn.undecodable => pumpLoop rest hs sid (n + 1) out
    | WsIn.nonJson => pumpLoop rest hs sid (n + 1) out
    | WsIn.jsonMsg a id data =>
      if a = some "init" ∧ hs = false then
        pumpLoop rest true id (n + 1) (out ++ [WsOut.handshake])
      else if a = some "hs" then
        pumpLoop rest hs sid (n + 1) (out ++ [WsOut.fetchReq])
      else if a = some "f" ∧ data.isSome then
        ⟨data, n + 1, sid, out, hs⟩
      else
        pumpLoop rest hs sid (n + 1) out

/-- The pump as entered by the source: handshake not yet re-sent, no
session id, zero messages received, nothing yet sent from inside the
loop. -/
def runPump {α : Type} (script : List (WsIn α)) : PumpResult α :=
  pumpLoop script false none 0 []

/-- Once the handshake flag is set, the pump never sends another
handshake. -/
theorem pumpLoop_handshake_suppressed {α : Type} (script : List (WsIn α)) :
    ∀ (sid : Option String) (n : Nat) (out : List WsOut),
      ((pumpLoop script true sid n out).sent.count WsOut.handshake)
        = out.count WsOut.handshake := by
  induction script with
  | nil => intro sid n out; rfl
  | cons e rest ih =>
    intro sid n out
    cases e with
    | timeout => rfl
    | closed => rfl
    | emptyMsg => exact ih sid (n + 1) out
    | undecodable => exact ih sid (n + 1) out
    | nonJson => exact ih sid (n + 1) out
    | jsonMsg a id data =>
      simp only [pumpLoop]
      rw [if_neg (by simp)]
      by_cases hhs : a = some "hs"
      · rw [if_pos hhs, ih]
        simp [List.count_append]
      · rw [if_neg hhs]
        by_cases hf : a = some "f" ∧ data.isSome = true
        · rw [if_pos hf]
        · rw [if_neg hf]
          exact ih sid (n + 1) out

/-- Starting with the handshake flag clear, the pump sends at most one
more handshake than already recorded. -/
theorem pumpLoop_handshake_le {α : Type} (script : List (WsIn α)) :
    ∀ (sid : Option String) (n : Nat) (out : List WsOut),
      ((pumpLoop script false sid n out).sent.count WsOut.handshake)
        ≤ out.count WsOut.handshake + 1 := by
  induction script with
  | nil => intro sid n out; exact Nat.le_succ _
  | cons e rest ih =>
    intro sid n out
    cases e with
    | timeout => exact Nat.le_succ _
    | closed => exact Nat.le_succ _
    | emptyMsg => exact ih sid (n + 1) out
    | undecodable => exact ih sid (n + 1) out
    | nonJson => exact ih sid (n + 1) out
    | jsonMsg a id data =>
      simp only [pumpLoop]
      by_cases hinit : a = some "init"
      · rw [if_pos ⟨hinit, trivial⟩]
        rw [pumpLoop_handshake_suppressed]
        simp [List.count_append]
      · rw [if_neg (by simp [hinit])]
        by_cases hhs : a = some "hs"
        · rw [if_pos hhs]
          calc ((pumpLoop rest false sid (n + 1) (out ++ [WsOut.fetchReq])).sent.count
                  WsOut.handshake)
              ≤ (out ++ [WsOut.fetchReq]).count WsOut.handshake + 1 := ih _ _ _
            _ = out.count WsOut.handshake + 1 := by simp [List.count_append]
        · rw [if_neg hhs]
          by_cases hf : a = some "f" ∧ data.isSome = true
          · rw [if_pos hf]
            exact Nat.le_succ _
          · rw [if_neg hf]
            exact ih sid (n + 1) out

/-- Claim C3: with the scripted inbound frames `[init, hs, f(data=X)]`
the pump terminates successfully with payload `X`, having re-sent the
handshake exactly once (on the first `init` frame) and then sent the
fetch request; with `[init]` followed by a timeout it terminates without
payload after exactly one re-sent handshake; and over every script the
handshake is re-sent at most once, so later `init` frames never trigger
another re-send. -/
theorem c3_pump_state_machine :
    (∀ (α : Type) (X : α) (sid : Option String),
        runPump [WsIn.jsonMsg (some "init") sid none,
                 WsIn.jsonMsg (some "hs") none none,
                 WsIn.jsonMsg (some "f") none (some X)]
          = ⟨some X, 3, sid, [WsOut.handshake, WsOut.fetchReq], true⟩) ∧
    (∀ (α : Type) (sid : Option String),
        runPump (α := α) [WsIn.jsonMsg (some "init") sid none, WsIn.timeout]
          = ⟨none, 1, sid, [WsOut.handshake], true⟩) ∧
    (∀ (α : Type) (script : List (WsIn α)),
        ((runPump script).sent.count WsOut.handshake) ≤ 1) := by
  refine ⟨fun α X sid => rfl, fun α sid => rfl, fun α script => ?_⟩
  have h := pumpLoop_handshake_le script none 0 []
  simpa [runPump] using h

/-! ### Socket teardown (claim C6)

The source wraps only the receive loop in `try/finally: ws.close()`.
The first handshake send, the optional init-payload send and the
`settimeout` call happen after `create_connection` but before that
`try`, so an exception there propagates without closing the socket. -/

/-- Environment of one socket retrieval attempt: whether the connect,
the first handshake send and the (optionally configured) init-payload
send succeed, and the scripted inbound frames of the pump. -/
structure SessionEnv (α : Type) where
  connectOk : Bool := true
  handshakeSendOk : Bool := true
  initPayloadSend : Option Bool := none
  script : List (WsIn α) := []
deriving DecidableEq

/-- Outcome of one socket retrieval attempt. -/
inductive SessionOutcome (α : Type) where
  | connectFailed
  | raised
  | finished (payload : Option α)
deriving DecidableEq

/-- Result of one socket retrieval attempt, tracking whether the socket
was opened and whether it was closed before leaving the function. -/
structure SessionResult (α : Type) where
  outcome : SessionOutcome α
  socketOpened : Bool
  socketClosed : Bool
deriving DecidableEq

/-- Translation of the control flow of `get_note_detail_via_websocket`
from `create_connection` on: a connect failure is caught and returns
without a socket; a failing handshake or init-payload send raises with
the socket still open; the receive loop runs under `try/finally` and
always closes the socket. -/
def runSession {α : Type} (env : SessionEnv α) : SessionResult α :=
  if !env.connectOk then ⟨SessionOutcome.connectFailed, false, false⟩
  else if !env.handshakeSendOk then ⟨SessionOutcome.raised, true, false⟩
  else
    match env.initPayloadSend with
    | some false => ⟨SessionOutcome.raised, true, false⟩
    | _ => ⟨SessionOutcome.finished (runPump env.script).payload, true, true⟩

/-- Claim C6 counterexample: when the first handshake send raises (a
connection broken right after connect), the socket was opened but is not
closed on the way out. -/
theorem c6_counterexample :
    (runSession (α := Nat) { handshakeSendOk := false }).socketOpened = true ∧
    (runSession (α := Nat) { handshakeSendOk := false }).socketClosed = false ∧
    (runSession (α := Nat) { handshakeSendOk := false }).outcome
      = SessionOutcome.raised := by
  decide

/-- Claim C6 (amended): whenever the pre-pump sends succeed, the socket
is closed on every exit path of the message pump — success, timeout,
protocol error, or abrupt close — before the attempt returns; an
exception during the initial handshake send or init-payload send
(after connect, before the pump) propagates without closing the
socket. -/
theorem c6_socket_closed_after_pump (α : Type) (env : SessionEnv α) :
    env.connectOk = true → env.handshakeSendOk = true →
    env.initPayloadSend ≠ some false →
    (runSession env).socketClosed = true := by
  intro h1 h2 h3
  unfold runSession
  rw [h1, h2]
  rcases hip : env.initPayloadSend with _ | b
  · simp [hip]
  · cases b with
    | false => exact absurd hip h3
    | true => simp [hip]

/-- Claim C6 witness: a session whose pump times out still closes the
socket. -/
theorem c6_witness :
    (runSession (α := Nat) { script := [WsIn.timeout] }).socketClosed = true :=
  c6_socket_closed_after_pump Nat { script := [WsIn.timeout] } rfl rfl (by decide)

/-! ## Rate limiter model (`rate_limit` and `_apply_rate_limit`)

`_apply_rate_limit` iterates over the attributes of the client and wraps
each public callable with `rate_limit(self.rate_limit_per_second)` —
except `request`, which the condition `attr_name != 'request'`
explicitly exempts, leaving that public method with no rate limiting at
all.  Every wrap evaluates `rate_limit(...)` anew, so every wrapped
method receives its own fresh `last_called` cell initialised to `0.0`:
the clocks are per method, not shared.  Time is modelled by rationals; a
call carries its target (the exempt `request`, or a wrapped public
method) and the duration of the underlying call itself
(non-negative). -/

/-- Target of one call through the client: the public method `request`,
exempted from wrapping by `_apply_rate_limit`, or any other public
method, wrapped by its own `rate_limit` decorator. -/
inductive RLTarget where
  | request
  | wrapped (m : Nat)
deriving DecidableEq

/-- One call through the client: the target invoked and how long the
underlying call itself takes. -/
structure RLCall where
  target : RLTarget
  dur : ℚ

/-- Wall clock plus the per-method `last_called` cells (association list;
a missing entry stands for the initial `0.0`). -/
structure RLState where
  now : ℚ
  last : List (Nat × ℚ)

/-- Read a method's `last_called` cell (initially `0.0`). -/
def lookupLast (l : List (Nat × ℚ)) (m : Nat) : ℚ := (l.lookup m).getD 0

/-- Write a method's `last_called` cell. -/
def updateLast : List (Nat × ℚ) → Nat → ℚ → List (Nat × ℚ)
  | [], m, v => [(m, v)]
  | (k, x) :: rest, m, v =>
    if k = m then (k, v) :: rest else (k, x) :: updateLast rest m v

/-- One call through the client.  A call to the exempt `request` runs
the body directly: no sleep, no clock touched.  A call to a wrapped
method runs the `wrapper` closure of `rate_limit`: compute the time
elapsed since the method's own `last_called`, sleep for the remainder of
the minimum interval when positive, run the wrapped call, and store the
completion time back into the method's cell. -/
def rlStep (minInterval : ℚ) (st : RLState) (c : RLCall) : RLState :=
  match c.target with
  | RLTarget.request => ⟨st.now + c.dur, st.last⟩
  | RLTarget.wrapped m =>
    let elapsed := st.now - lookupLast st.last m
    let leftToWait := minInterval - elapsed
    let sleepFor := if 0 < leftToWait then leftToWait else 0
    let endTime := st.now + sleepFor + c.dur
    ⟨endTime, updateLast st.last m endTime⟩

/-- A sequence of consecutive calls through the client. -/
def rlRun (minInterval : ℚ) (st : RLState) (calls : List RLCall) : RLState :=
  calls.foldl (rlStep minInterval) st

/-- Updating a method's cell and reading it back gives the written
value. -/
theorem lookupLast_updateLast (l : List (Nat × ℚ)) (m : Nat) (v : ℚ) :
    lookupLast (updateLast l m v) m = v := by
  induction l with
  | nil => simp [updateLast, lookupLast, List.lookup]
  | cons p rest ih =>
    obtain ⟨k, x⟩ := p
    by_cases hk : k = m
    · simp [updateLast, hk, lookupLast, List.lookup]
    · simp only [updateLast, if_neg hk]
      have hbeq : (m == k) = false := by
        simp [Ne.symm hk]
      simp only [lookupLast, List.lookup, hbeq]
      exact ih

/-- Lower bound for a run of calls to one wrapped method, starting from
a state whose cell for that method records the current instant (the
situation right after a completed call to the method). -/
theorem rlRun_same_method_bound (minI : ℚ) (hminI : 0 ≤ minI) (m : Nat) :
    ∀ (calls : List RLCall) (st : RLState),
      (∀ x ∈ calls, x.target = RLTarget.wrapped m ∧ 0 ≤ x.dur) →
      lookupLast st.last m = st.now →
      st.now + calls.length * minI ≤ (rlRun minI st calls).now := by
  intro calls
  induction calls with
  | nil =>
    intro st _ _
    simp [rlRun]
  | cons c rest ih =>
    intro st hm hinv
    obtain ⟨hcm, hcd⟩ := hm c (List.mem_cons_self c rest)
    have hrest : ∀ x ∈ rest, x.target = RLTarget.wrapped m ∧ 0 ≤ x.dur :=
      fun x hx => hm x (List.mem_cons_of_mem c hx)
    have hnow : st.now + minI ≤ (rlStep minI st c).now := by
      simp only [rlStep, hcm]
      rw [hinv, sub_self, sub_zero]
      rcases eq_or_lt_of_le hminI with h | h
      · rw [if_neg (by rw [← h]; exact lt_irrefl 0)]
        rw [← h]
        linarith
      · rw [if_pos h]
        linarith
    have hlast : lookupLast (rlStep minI st c).last m = (rlStep minI st c).now := by
      simp only [rlStep, hcm]
      exact lookupLast_updateLast _ _ _
    have hfinal := ih (rlStep minI st c) hrest hlast
    have hlen : ((rest.length + 1 : Nat) : ℚ) * minI = minI + rest.length * minI := by
      push_cast
      ring
    calc st.now + ((c :: rest).length : Nat) * minI
        = (st.now + minI) + rest.length * minI := by
          simp only [List.length_cons, hlen]; ring
      _ ≤ (rlStep minI st c).now + rest.length * minI := by linarith
      _ ≤ (rlRun minI (rlStep minI st c) rest).now := hfinal
      _ = (rlRun minI st (c :: rest)).now := rfl

/-- Calls to the exempt `request` pass through no wrapper: a run of
zero-duration `request` calls advances the clock by nothing. -/
theorem rlRun_request_unlimited (minI : ℚ) :
    ∀ (n : Nat) (st : RLState),
      (rlRun minI st (List.replicate n ⟨RLTarget.request, 0⟩)).now = st.now := by
  intro n
  induction n with
  | zero => intro st; rfl
  | succ k ih =>
    intro st
    show (rlRun minI (rlStep minI st ⟨RLTarget.request, 0⟩)
      (List.replicate k ⟨RLTarget.request, 0⟩)).now = st.now
    rw [ih]
    show st.now + 0 = st.now
    exact add_zero st.now

/-- Claim C4 counterexample: two back-to-back zero-duration calls through
two different wrapped public methods of a fresh client (wall clock at
100, both `last_called` cells at their initial 0.0) complete with no
elapsed time at all — and so do two consecutive calls through the
public method `request`, which `_apply_rate_limit` exempts from
wrapping — although the claim (one shared clock across all of the
instance's operations, `calls_per_second = 1`) requires at least
`(2-1)/1 = 1` second for any two consecutive calls. -/
theorem c4_counterexample :
    (rlRun 1 ⟨100, []⟩ [⟨RLTarget.wrapped 0, 0⟩, ⟨RLTarget.wrapped 1, 0⟩]).now = 100 ∧
    (rlRun 1 ⟨100, []⟩ [⟨RLTarget.request, 0⟩, ⟨RLTarget.request, 0⟩]).now = 100 ∧
    ¬ ((1 : ℚ) ≤
      (rlRun 1 ⟨100, []⟩ [⟨RLTarget.wrapped 0, 0⟩, ⟨RLTarget.wrapped 1, 0⟩]).now - 100) := by
  have h : (rlRun 1 ⟨100, []⟩ [⟨RLTarget.wrapped 0, 0⟩, ⟨RLTarget.wrapped 1, 0⟩]).now
      = 100 := by
    norm_num [rlRun, rlStep, lookupLast, updateLast, List.lookup,
      show ((1 : Nat) == 0) = false from rfl]
  have hreq : (rlRun 1 ⟨100, []⟩
      [⟨RLTarget.request, 0⟩, ⟨RLTarget.request, 0⟩]).now = 100 := by
    norm_num [rlRun, rlStep]
  exact ⟨h, hreq, by rw [h]; norm_num⟩

/-- Claim C4 (amended): `_apply_rate_limit` wraps every public method of
the client instance except `request`, which it explicitly exempts and
which is therefore not rate-limited at all; each wrapped method owns its
own rate-limiter clock, so the minimum inter-call interval of
`1/calls_per_second` is enforced per wrapped method: any `N` consecutive
calls to the same wrapped method take at least `(N-1)/calls_per_second`
seconds in total, while calls through different methods — and all calls
through the exempt `request` — are not serialized. -/
theorem c4_rate_limited_per_wrapped_method :
    (∀ (cps : ℚ), 0 < cps →
      ∀ (m : Nat) (st0 : RLState) (c : RLCall) (rest : List RLCall),
        (∀ x ∈ c :: rest, x.target = RLTarget.wrapped m ∧ 0 ≤ x.dur) →
        st0.now + rest.length * (1 / cps) ≤ (rlRun (1 / cps) st0 (c :: rest)).now) ∧
    (∀ (minI : ℚ) (n : Nat) (st : RLState),
        (rlRun minI st (List.replicate n ⟨RLTarget.request, 0⟩)).now = st.now) := by
  refine ⟨?_, rlRun_request_unlimited⟩
  intro cps hcps m st0 c rest hm
  have hminI : 0 ≤ 1 / cps := le_of_lt (by positivity)
  obtain ⟨hcm, hcd⟩ := hm c (List.mem_cons_self c rest)
  have hrest : ∀ x ∈ rest, x.target = RLTarget.wrapped m ∧ 0 ≤ x.dur :=
    fun x hx => hm x (List.mem_cons_of_mem c hx)
  have hnow1 : st0.now ≤ (rlStep (1 / cps) st0 c).now := by
    simp only [rlStep, hcm]
    by_cases h : 0 < 1 / cps - (st0.now - lookupLast st0.last m)
    · rw [if_pos h]
      linarith
    · rw [if_neg h]
      linarith
  have hlast1 : lookupLast (rlStep (1 / cps) st0 c).last m = (rlStep (1 / cps) st0 c).now := by
    simp only [rlStep, hcm]
    exact lookupLast_updateLast _ _ _
  have hb := rlRun_same_method_bound (1 / cps) hminI m rest (rlStep (1 / cps) st0 c) hrest hlast1
  calc st0.now + rest.length * (1 / cps)
      ≤ (rlStep (1 / cps) st0 c).now + rest.length * (1 / cps) := by linarith
    _ ≤ (rlRun (1 / cps) (rlStep (1 / cps) st0 c) rest).now := hb
    _ = (rlRun (1 / cps) st0 (c :: rest)).now := rfl

/-- Claim C4 witness: two zero-duration calls to the same wrapped method
from the setting of the counterexample do take a full second. -/
theorem c4_witness :
    (101 : ℚ) ≤ (rlRun (1 / 1) ⟨100, []⟩
      [⟨RLTarget.wrapped 0, 0⟩, ⟨RLTarget.wrapped 0, 0⟩]).now := by
  have hm : ∀ x ∈ ([⟨RLTarget.wrapped 0, 0⟩, ⟨RLTarget.wrapped 0, 0⟩] : List RLCall),
      x.target = RLTarget.wrapped 0 ∧ 0 ≤ x.dur := by
    intro x hx
    rcases List.mem_cons.mp hx with h | h
    · subst h; exact ⟨rfl, le_refl 0⟩
    · rw [List.mem_singleton.mp h]; exact ⟨rfl, le_refl 0⟩
  have h := c4_rate_limited_per_wrapped_method.1 1 (by norm_num) 0 ⟨100, []⟩
    ⟨RLTarget.wrapped 0, 0⟩ [⟨RLTarget.wrapped 0, 0⟩] hm
  norm_num at h
  linarith

/-! ## REST request model (`request` under the tenacity retry decorator)

The body of `request` issues one HTTP call; on a 401 it refreshes the
auth token once and re-issues the call once; `raise_for_status` then
raises for any status of 400 or above.  The whole body is wrapped in
`@retry(stop=stop_after_attempt(3), wait=wait_exponential(multiplier=1,
min=4, max=10))`, which re-runs the body on any raised exception until
three attempts have been made, sleeping the capped exponential backoff
between attempts.  The network is scripted as the list of outcomes of
successive HTTP calls. -/

/-- Outcome of one underlying HTTP call. -/
inductive HttpOutcome where
  | status (code : Nat)
  | netError
deriving DecidableEq

/-- Result of one attempt (one execution of the body of `request`). -/
inductive AttemptRes where
  | ok (code : Nat)
  | raisedStatus (code : Nat)
  | raisedNet
deriving DecidableEq

/-- `response.raise_for_status()` raises for status codes of 400 and
above. -/
def raisesForStatus (code : Nat) : Bool := 400 ≤ code

/-- One execution of the body of `request`: issue the call; on a 401,
refresh the token and re-issue exactly once; then raise for a bad
status.  Returns how many HTTP calls were consumed, how many token
refreshes happened, and the attempt outcome.  Script exhaustion behaves
like a network error. -/
def runAttempt : List HttpOutcome → Nat × Nat × AttemptRes
  | [] => (0, 0, AttemptRes.raisedNet)
  | HttpOutcome.netError :: _ => (1, 0, AttemptRes.raisedNet)
  | HttpOutcome.status c :: rest =>
    if c = 401 then
      match rest with
      | [] => (1, 1, AttemptRes.raisedNet)
      | HttpOutcome.netError :: _ => (2, 1, AttemptRes.raisedNet)
      | HttpOutcome.status c2 :: _ =>
        if raisesForStatus c2 then (2, 1, AttemptRes.raisedStatus c2)
        else (2, 1, AttemptRes.ok c2)
    else
      if raisesForStatus c then (1, 0, AttemptRes.raisedStatus c)
      else (1, 0, AttemptRes.ok c)

/-- tenacity `wait_exponential(multiplier=1, min=4, max=10)`: the sleep
after failed attempt number `n`. -/
def waitExp (n : Nat) : ℚ := max 4 (min ((2 : ℚ) ^ n) 10)

/-- Aggregate outcome of a `request` call through the retry decorator. -/
structure RequestRun where
  result : AttemptRes
  attempts : Nat
  httpCalls : Nat
  refreshes : Nat
  waits : List ℚ
deriving DecidableEq

/-- The retry loop of the decorator: run the body; return on success;
on a raised exception, retry (with backoff) until `left` attempts have
been used up, then surface the last error. -/
def runRequestLoop : Nat → Nat → List HttpOutcome → Nat → Nat → List ℚ → RequestRun
  | 0, attemptNo, _, calls, refr, waits =>
    ⟨AttemptRes.raisedNet, attemptNo, calls, refr, waits⟩
  | left + 1, attemptNo, script, calls, refr, waits =>
    let a := runAttempt script
    let used := a.1
    let refs := a.2.1
    match a.2.2 with
    | AttemptRes.ok c => ⟨AttemptRes.ok c, attemptNo + 1, calls + used, refr + refs, waits⟩
    | r =>
      if left = 0 then ⟨r, attemptNo + 1, calls + used, refr + refs, waits⟩
      else runRequestLoop left (attemptNo + 1) (script.drop used) (calls + used)
        (refr + refs) (waits ++ [waitExp (attemptNo + 1)])

/-- A `request` call: at most three attempts. -/
def runRequest (script : List HttpOutcome) : RequestRun :=
  runRequestLoop 3 0 script 0 0 []

/-- The retry loop makes at most `left` further attempts. -/
theorem runRequestLoop_attempts_le (left : Nat) :
    ∀ (attemptNo : Nat) (script : List HttpOutcome) (calls refr : Nat) (waits : List ℚ),
      (runRequestLoop left attemptNo script calls refr waits).attempts ≤ attemptNo + left := by
  induction left with
  | zero =>
    intro attemptNo script calls refr waits
    simp [runRequestLoop]
  | succ l ih =>
    intro attemptNo script calls refr waits
    rcases h : runAttempt script with ⟨used, refs, res⟩
    simp only [runRequestLoop, h]
    cases res with
    | ok c => simp
    | raisedStatus c =>
      by_cases hl : l = 0
      · simp [hl]
      · simp only [if_neg hl]
        calc (runRequestLoop l (attemptNo + 1) (script.drop used) (calls + used)
                (refr + refs) (waits ++ [waitExp (attemptNo + 1)])).attempts
            ≤ (attemptNo + 1) + l := ih _ _ _ _ _
          _ = attemptNo + (l + 1) := by omega
    | raisedNet =>
      by_cases hl : l = 0
      · simp [hl]
      · simp only [if_neg hl]
        calc (runRequestLoop l (attemptNo + 1) (script.drop used) (calls + used)
                (refr + refs) (waits ++ [waitExp (attemptNo + 1)])).attempts
            ≤ (attemptNo + 1) + l := ih _ _ _ _ _
          _ = attemptNo + (l + 1) := by omega

/-- Claim C5 counterexample: with every HTTP call answering 401, the
retry decorator re-runs the refresh-and-reissue body three times, so the
call performs three token refreshes and six HTTP calls — not the single
refresh and single re-issue of the claim ("a second 401 is a hard
failure, no further refresh or retry"). -/
theorem c5_counterexample :
    (runRequest (List.replicate 6 (HttpOutcome.status 401))).refreshes = 3 ∧
    (runRequest (List.replicate 6 (HttpOutcome.status 401))).httpCalls = 6 ∧
    (runRequest (List.replicate 6 (HttpOutcome.status 401))).refreshes ≠ 1 ∧
    (runRequest (List.replicate 6 (HttpOutcome.status 401))).result
      = AttemptRes.raisedStatus 401 := by
  refine ⟨rfl, rfl, by decide, rfl⟩

/-- Claim C5 (amended): within each attempt a 401 triggers exactly one
token refresh and one re-issued call, and a second 401 makes the attempt
raise; the outer retry layer treats that error like any other failure
and re-runs the whole body (including another refresh) up to 3 total
attempts with capped exponential backoff; transient failures (network
error, 5xx) are likewise retried up to 3 attempts, with backoff sleeps
of 4 seconds (the exponential 2^n clamped into [4,10]), after which the
error propagates to the caller; a success returns immediately. -/
theorem c5_retry_refresh_behavior :
    (∀ rest : List HttpOutcome,
        runRequest (HttpOutcome.status 401 :: HttpOutcome.status 200 :: rest)
          = ⟨AttemptRes.ok 200, 1, 2, 1, []⟩) ∧
    (∀ rest : List HttpOutcome,
        runAttempt (HttpOutcome.status 401 :: HttpOutcome.status 401 :: rest)
          = (2, 1, AttemptRes.raisedStatus 401)) ∧
    (∀ rest : List HttpOutcome,
        runRequest (HttpOutcome.status 200 :: rest)
          = ⟨AttemptRes.ok 200, 1, 1, 0, []⟩) ∧
    runRequest (List.replicate 3 (HttpOutcome.status 500))
      = ⟨AttemptRes.raisedStatus 500, 3, 3, 0, [waitExp 1, waitExp 2]⟩ ∧
    runRequest (List.replicate 3 HttpOutcome.netError)
      = ⟨AttemptRes.raisedNet, 3, 3, 0, [waitExp 1, waitExp 2]⟩ ∧
    waitExp 1 = 4 ∧ waitExp 2 = 4 ∧
    (∀ script : List HttpOutcome, (runRequest script).attempts ≤ 3) := by
  refine ⟨fun rest => rfl, fun rest => rfl, fun rest => rfl, rfl, rfl, ?_, ?_, ?_⟩
  · norm_num [waitExp]
  · norm_num [waitExp]
  · intro script
    exact runRequestLoop_attempts_le 3 0 script 0 0 []

/-! ## Filename logic (`main.py` and `json_to_markdown.py`)

Two distinct naming schemes exist in the source.  The retrieval
orchestrator `export_notes_to_markdown` names each note
`sanitize_filename(title, fallback=doc_guid or 'untitled') + '.md'` —
derived from the note title, with no collision handling.  The standalone
batch mode `convert_all_json_to_markdown` names each file from the first
characters of the rendered Markdown via
`get_filename_from_content(content, max_length=15)` and disambiguates
collisions with a numeric suffix loop. -/

/-- Illegal filename characters replaced by `sanitize_filename`. -/
def invalidNameChars : List Char :=
  ['/', '\\', ':', '*', '?', '"', '<', '>', '|']

/-- Translation of `sanitize_filename` (main.py): fall back when the
name is falsy, replace illegal characters by underscores, strip (falling
back again when the stripped result is empty), truncate to `maxLength`
characters. -/
def sanitizeFilename (name : String) (fallback : String) (maxLength : Nat) : String :=
  let name := if name = "" then fallback else name
  let name := invalidNameChars.foldl (fun s c => pyReplaceChar s c '_') name
  let name := if pyStrip name = "" then fallback else pyStrip name
  pyTake name maxLength

/-- Python `or` on strings, with `None` modelled as the empty string. -/
def pyOr (a b : String) : String := if a = "" then b else a

/-- The filename `export_notes_to_markdown` writes for one note:
`sanitize_filename(title, fallback=doc_guid or 'untitled') + '.md'`
where `title = note.get('title') or doc_guid or 'untitled'`. -/
def exportNoteFilename (title docGuid : String) : String :=
  sanitizeFilename (pyOr title (pyOr docGuid "untitled")) (pyOr docGuid "untitled") 80
    ++ ".md"

/-- Illegal characters replaced by `get_filename_from_content`. -/
def invalidContentChars : List Char :=
  invalidNameChars ++ ['\n', '\r', '\t']

/-- Embedding of Python `s.split(sep)` for a single separator character:
group the characters between separators (an empty string stays one empty
group, as in Python). -/
def splitOnChar (sep : Char) (l : List Char) : List (List Char) :=
  l.foldr (fun c acc =>
    match acc with
    | [] => [[c]]
    | cur :: rest => if c = sep then [] :: cur :: rest else (c :: cur) :: rest) [[]]

/-- Embedding of Python `content.split('\n')`. -/
def pySplitLines (s : String) : List String :=
  (splitOnChar '\n' s.data).map (fun l => ⟨l⟩)

/-- Embedding of Python `content.startswith('#')`: the first character
is a hash mark. -/
def pyStartsWithHash (s : String) : Bool :=
  match s.data with
  | [] => false
  | c :: _ => c == '#'

/-- Step of `get_filename_from_content`: drop leading `#` marks
(`content.lstrip('#')`) and strip, when the content starts with `#`. -/
def stripHeadingHashes (content : String) : String :=
  if pyStartsWithHash content then
    pyStrip ⟨content.data.dropWhile (fun c => c = '#')⟩
  else content

/-- Step of `get_filename_from_content`: the stripped first line, or the
first non-blank line when the first line is blank, or `untitled`. -/
def firstNonEmptyLine (content : String) : String :=
  let firstLine := pyStrip ((pySplitLines content).headD "")
  if firstLine = "" then
    (((pySplitLines content).map pyStrip).filter (fun l => l != "")).headD "untitled"
  else firstLine

/-- Step of `get_filename_from_content`: the replacement loop over the
illegal characters. -/
def replaceInvalidContentChars (s : String) : String :=
  invalidContentChars.foldl (fun s c => pyReplaceChar s c '_') s

/-- Translation of `get_filename_from_content` (json_to_markdown.py). -/
def getFilenameFromContent (content : String) (maxLength : Nat) : String :=
  if content = "" then "untitled"
  else
    let filename := pyStrip (replaceInvalidContentChars
      (pyTake (firstNonEmptyLine (stripHeadingHashes (pyStrip content))) maxLength))
    if filename = "" then "untitled" else filename

/-- One numeric-suffix candidate of the collision loop:
`f"{base_filename}_{counter}.md"`. -/
def suffixCandidate (base : String) (k : Nat) : String :=
  base ++ "_" ++ toString k ++ ".md"

/-- The `while output_file.exists()` loop of
`convert_all_json_to_markdown`, with the files already present in the
output directory as `existing`.  The fuel only bounds the recursion;
`existing.length + 1` probes always find a free candidate. -/
def pickAux (base : String) (existing : List String) : Nat → Nat → String
  | 0, counter => suffixCandidate base counter
  | fuel + 1, counter =>
    if suffixCandidate base counter ∈ existing then
      pickAux base existing fuel (counter + 1)
    else suffixCandidate base counter

/-- The output filename chosen by `convert_all_json_to_markdown`:
`base.md` when free, otherwise the first free `base_k.md`. -/
def pickOutputFilename (base : String) (existing : List String) : String :=
  if base ++ ".md" ∈ existing then pickAux base existing (existing.length + 1) 1
  else base ++ ".md"

/-! ### Injectivity of the numeric suffix

The collision loop relies on the decimal renderings of distinct counters
being distinct; this is proved by a parse-back round trip of
`Nat.repr`. -/

/-- Numeric value of a decimal digit character. -/
def digitVal (c : Char) : Nat := c.toNat - 48

/-- Decimal value of a digit string. -/
def decValue (l : List Char) : Nat := l.foldl (fun a c => 10 * a + digitVal c) 0

/-- Digit characters parse back to their value. -/
theorem digitVal_digitChar (n : Nat) (h : n < 10) : digitVal (Nat.digitChar n) = n := by
  interval_cases n <;> rfl

/-- The digit accumulator of `Nat.toDigitsCore` only appends. -/
theorem toDigitsCore_append (fuel : Nat) :
    ∀ (n : Nat) (ds : List Char),
      Nat.toDigitsCore 10 fuel n ds = Nat.toDigitsCore 10 fuel n [] ++ ds := by
  induction fuel with
  | zero => intro n ds; simp [Nat.toDigitsCore]
  | succ f ih =>
    intro n ds
    simp only [Nat.toDigitsCore]
    by_cases h : n / 10 = 0
    · rw [if_pos h, if_pos h]
      simp
    · rw [if_neg h, if_neg h]
      rw [ih (n / 10) ((n % 10).digitChar :: ds), ih (n / 10) [(n % 10).digitChar]]
      simp

/-- Parsing the decimal digits of `n` yields `n`, given enough fuel. -/
theorem decValue_toDigitsCore (fuel : Nat) :
    ∀ n : Nat, n < 10 ^ fuel →
      decValue (Nat.toDigitsCore 10 fuel n []) = n := by
  induction fuel with
  | zero =>
    intro n h
    have hn : n = 0 := by simpa using h
    subst hn
    rfl
  | succ f ih =>
    intro n h
    simp only [Nat.toDigitsCore]
    by_cases h0 : n / 10 = 0
    · rw [if_pos h0]
      have hn : n < 10 := by omega
      have hmod : n % 10 = n := Nat.mod_eq_of_lt hn
      simp [decValue, hmod, digitVal_digitChar n hn]
    · rw [if_neg h0]
      rw [toDigitsCore_append f (n / 10) [(n % 10).digitChar]]
      have hdiv : n / 10 < 10 ^ f := by
        rw [Nat.div_lt_iff_lt_mul (by norm_num : 0 < 10)]
        calc n < 10 ^ (f + 1) := h
          _ = 10 ^ f * 10 := by ring
      have hih := ih (n / 10) hdiv
      simp only [decValue] at hih ⊢
      rw [List.foldl_append, hih]
      simp only [List.foldl_cons, List.foldl_nil]
      rw [digitVal_digitChar (n % 10) (Nat.mod_lt _ (by norm_num))]
      omega

/-- Every natural is below `10 ^ (n + 1)`. -/
theorem lt_ten_pow_succ (n : Nat) : n < 10 ^ (n + 1) :=
  lt_of_lt_of_le (Nat.lt_pow_self (by norm_num) n)
    (Nat.pow_le_pow_right (by norm_num) (Nat.le_succ n))

/-- Decimal rendering of naturals is injective. -/
theorem natRepr_injective : Function.Injective Nat.repr := by
  intro a b h
  have h' : (Nat.toDigits 10 a).asString = (Nat.toDigits 10 b).asString := h
  have hdig : Nat.toDigitsCore 10 (a + 1) a [] = Nat.toDigitsCore 10 (b + 1) b [] :=
    List.asString_inj.mp h'
  have hv := congrArg decValue hdig
  rwa [decValue_toDigitsCore _ _ (lt_ten_pow_succ a),
    decValue_toDigitsCore _ _ (lt_ten_pow_succ b)] at hv

/-- Distinct counters give distinct suffix candidates. -/
theorem suffixCandidate_injective (base : String) :
    Function.Injective (suffixCandidate base) := by
  intro a b h
  have hdata := congrArg String.data h
  simp only [suffixCandidate, String.data_append] at hdata
  have h1 := List.append_cancel_right hdata
  have h2 := List.append_cancel_left h1
  exact natRepr_injective (String.ext h2)

/-- The loop's result avoids `existing` as soon as some probed candidate
is free. -/
theorem pickAux_not_mem (base : String) (existing : List String) :
    ∀ (fuel counter : Nat),
      (∃ i < fuel, suffixCandidate base (counter + i) ∉ existing) →
      pickAux base existing fuel counter ∉ existing := by
  intro fuel
  induction fuel with
  | zero =>
    intro counter h
    obtain ⟨i, hi, _⟩ := h
    omega
  | succ f ih =>
    intro counter h
    simp only [pickAux]
    by_cases hc : suffixCandidate base counter ∈ existing
    · rw [if_pos hc]
      apply ih
      obtain ⟨i, hi, hni⟩ := h
      cases i with
      | zero => simp only [Nat.add_zero] at hni; exact absurd hc hni
      | succ j =>
        refine ⟨j, by omega, ?_⟩
        have harg : counter + (j + 1) = counter + 1 + j := by omega
        rwa [harg] at hni
    · rw [if_neg hc]
      exact hc

/-- Pigeonhole: among the first `existing.length + 1` candidates, one is
not in `existing`. -/
theorem exists_free_candidate (base : String) (existing : List String) :
    ∃ i < existing.length + 1, suffixCandidate base (1 + i) ∉ existing := by
  by_contra hall
  push_neg at hall
  have hsub : ((List.range (existing.length + 1)).map
      (fun i => suffixCandidate base (1 + i))) ⊆ existing := by
    intro x hx
    simp only [List.mem_map, List.mem_range] at hx
    obtain ⟨i, hi, rfl⟩ := hx
    exact hall i hi
  have hinj : Function.Injective (fun i => suffixCandidate base (1 + i)) := by
    intro a b hab
    have := suffixCandidate_injective base hab
    omega
  have hnd := (List.nodup_range (existing.length + 1)).map hinj
  have hle := (hnd.subperm hsub).length_le
  simp only [List.length_map, List.length_range] at hle
  omega

/-- The collision loop never returns a name already present. -/
theorem pickOutputFilename_not_mem (base : String) (existing : List String) :
    pickOutputFilename base existing ∉ existing := by
  unfold pickOutputFilename
  by_cases h : base ++ ".md" ∈ existing
  · rw [if_pos h]
    exact pickAux_not_mem base existing _ 1 (exists_free_candidate base existing)
  · rw [if_neg h]
    exact h

/-- The loop only ever returns suffix candidates. -/
theorem pickAux_shape (base : String) (existing : List String) :
    ∀ (fuel counter : Nat), ∃ k, counter ≤ k ∧
      pickAux base existing fuel counter = suffixCandidate base k := by
  intro fuel
  induction fuel with
  | zero => intro counter; exact ⟨counter, le_refl _, rfl⟩
  | succ f ih =>
    intro counter
    simp only [pickAux]
    by_cases hc : suffixCandidate base counter ∈ existing
    · rw [if_pos hc]
      obtain ⟨k, hk, hres⟩ := ih (counter + 1)
      exact ⟨k, by omega, hres⟩
    · rw [if_neg hc]
      exact ⟨counter, le_refl _, rfl⟩

/-! ### Length invariants of the naming functions -/

/-- Stripping does not lengthen a character list. -/
theorem pyStripList_length_le (l : List Char) : (pyStripList l).length ≤ l.length := by
  unfold pyStripList
  calc (((l.dropWhile isStripChar).reverse.dropWhile isStripChar).reverse).length
      = ((l.dropWhile isStripChar).reverse.dropWhile isStripChar).length :=
        List.length_reverse _
    _ ≤ (l.dropWhile isStripChar).reverse.length :=
        (List.dropWhile_sublist isStripChar).length_le
    _ = (l.dropWhile isStripChar).length := List.length_reverse _
    _ ≤ l.length := (List.dropWhile_sublist isStripChar).length_le

/-- Character replacement preserves length. -/
theorem replaceFold_length (cs : List Char) :
    ∀ s : String,
      ((cs.foldl (fun s c => pyReplaceChar s c '_') s).data.length = s.data.length) := by
  induction cs with
  | nil => intro s; rfl
  | cons c rest ih =>
    intro s
    rw [List.foldl_cons, ih]
    simp [pyReplaceChar]

/-- `sanitize_filename` truncates to at most `maxLength` characters. -/
theorem sanitizeFilename_length_le (name fallback : String) (maxLength : Nat) :
    (sanitizeFilename name fallback maxLength).data.length ≤ maxLength := by
  unfold sanitizeFilename
  simp [pyTake, List.length_take]

/-- The content-derived base name has at most `maxLength` characters
(when `maxLength` is at least the length of `untitled`). -/
theorem getFilenameFromContent_length_le (content : String) (maxLength : Nat)
    (hm : 8 ≤ maxLength) :
    (getFilenameFromContent content maxLength).data.length ≤ maxLength := by
  unfold getFilenameFromContent
  by_cases h : content = ""
  · rw [if_pos h]
    simpa using hm
  · rw [if_neg h]
    show (if pyStrip (replaceInvalidContentChars
        (pyTake (firstNonEmptyLine (stripHeadingHashes (pyStrip content))) maxLength)) = ""
      then "untitled"
      else pyStrip (replaceInvalidContentChars
        (pyTake (firstNonEmptyLine (stripHeadingHashes (pyStrip content)))
          maxLength))).data.length ≤ maxLength
    by_cases h2 : pyStrip (replaceInvalidContentChars
        (pyTake (firstNonEmptyLine (stripHeadingHashes (pyStrip content))) maxLength)) = ""
    · rw [if_pos h2]
      simpa using hm
    · rw [if_neg h2]
      calc (pyStrip (replaceInvalidContentChars
              (pyTake (firstNonEmptyLine (stripHeadingHashes (pyStrip content)))
                maxLength))).data.length
          ≤ (replaceInvalidContentChars
              (pyTake (firstNonEmptyLine (stripHeadingHashes (pyStrip content)))
                maxLength)).data.length := pyStripList_length_le _
        _ = (pyTake (firstNonEmptyLine (stripHeadingHashes (pyStrip content)))
              maxLength).data.length := replaceFold_length _ _
        _ ≤ maxLength := by simp [pyTake, List.length_take]

/-- Claim C8 counterexample: the retrieval orchestrator names the file
from the note title, not from the rendered Markdown.  For a note whose
title is `My note title` and whose rendered Markdown is `Hello world`,
the orchestrator writes `My note title.md` while the content-derived
scheme of the claim would give `Hello world.md`. -/
theorem c8_counterexample :
    exportNoteFilename "My note title" "guid-1" = "My note title.md" ∧
    pickOutputFilename (getFilenameFromContent "Hello world" 15) [] = "Hello world.md" ∧
    exportNoteFilename "My note title" "guid-1"
      ≠ pickOutputFilename (getFilenameFromContent "Hello world" 15) [] := by
  refine ⟨by decide, by decide, by decide⟩

/-- Claim C8 (amended): the retrieval orchestrator derives each output
filename from the note title — sanitized (illegal characters replaced,
stripped) and truncated to 80 characters, with the doc guid or
`untitled` as fallback — and performs no collision disambiguation.
Content-derived naming belongs to the standalone batch conversion mode:
there the base name is the first characters of the rendered Markdown
(truncated to the fixed length 15, illegal characters replaced), and a
numeric suffix disambiguates collisions with existing files in the same
output directory: the chosen name is never one of the existing names and
is either `base.md` or some `base_k.md`. -/
theorem c8_filename_derivation :
    (∀ (title docGuid : String),
        (exportNoteFilename title docGuid).data.length ≤ 83) ∧
    (∀ (content : String) (existing : List String),
        pickOutputFilename (getFilenameFromContent content 15) existing ∉ existing) ∧
    (∀ (base : String) (existing : List String),
        pickOutputFilename base existing = base ++ ".md" ∨
          ∃ k, 1 ≤ k ∧ pickOutputFilename base existing = suffixCandidate base k) ∧
    (∀ content : String, (getFilenameFromContent content 15).data.length ≤ 15) := by
  refine ⟨?_, ?_, ?_, ?_⟩
  · intro title docGuid
    unfold exportNoteFilename
    rw [String.data_append]
    have h1 := sanitizeFilename_length_le (pyOr title (pyOr docGuid "untitled"))
      (pyOr docGuid "untitled") 80
    simp only [List.length_append, List.length_cons, List.length_nil]
    omega
  · intro content existing
    exact pickOutputFilename_not_mem _ existing
  · intro base existing
    unfold pickOutputFilename
    by_cases h : base ++ ".md" ∈ existing
    · rw [if_pos h]
      obtain ⟨k, hk, hres⟩ := pickAux_shape base existing (existing.length + 1) 1
      exact Or.inr ⟨k, hk, hres⟩
    · rw [if_neg h]
      exact Or.inl rfl
  · intro content
    exact getFilenameFromContent_length_le content 15 (by norm_num)

/-- Claim C8 witness: a concrete collision — `Hello world.md` already
exists, so the batch mode picks `Hello world_1.md`, which is fresh. -/
theorem c8_witness :
    pickOutputFilename (getFilenameFromContent "Hello world" 15) ["Hello world.md"]
      ∉ ["Hello world.md"] :=
  c8_filename_derivation.2.1 "Hello world" ["Hello world.md"]

end WizExport
